import Mathlib

/-!
Shallow embedding of the `SimpleVector` dynamic-array container
(`src/simple-vector/simple_vector.h`, backed by the owned-buffer primitive
`ArrayPtr` of `src/simple-vector/array_ptr.h`).

The container state is a record of the owned buffer contents (`items_`,
modelling the `ArrayPtr<Type>` allocation as the list of values stored in
the allocated slots, in order), the logical element count `size_`, and the
reported slot count `capacity_`.  `new Type[n]` default-constructs its
elements, modelled by `List.replicate n default`; machine `size_t`
arithmetic never overflows in the modelled operations, so `Nat` is exact.

Raw buffer writes performed through iterators / `std::copy` /
`std::copy_backward` / `std::move` are modelled by `writeAt dst i src`,
which overwrites the slots `[i, i + src.length)` of `dst` with `src`.
Since each C++ copy reads its source range before the model records the
result, forward/backward copy direction is irrelevant: `writeAt` always
receives the values the C++ range held at the start of the copy.
-/

namespace SimpleVec

/-- Overwrite the slots `[i, i + src.length)` of buffer `dst` with the
values of `src` (models `std::copy` / `std::copy_backward` / `std::move`
of a whole range into an allocated buffer at offset `i`; writes past the
end of `dst`, undefined behaviour in C++, are truncated). -/
def writeAt {α : Type} (dst : List α) (i : Nat) (src : List α) : List α :=
  dst.take i ++ src.take (dst.length - i) ++ dst.drop (i + src.length)

/-- The buffer produced by `new Type[n]`: `n` default-constructed slots
(`ArrayPtr(size_t)`, array_ptr.h lines 11-15). -/
def newBuffer (α : Type) [Inhabited α] (n : Nat) : List α :=
  List.replicate n default

/-- State of a `SimpleVector<Type>`: the owned buffer `items_` (slot values
of the current allocation), `size_` and `capacity_`
(simple_vector.h lines 280-284). -/
structure SimpleVector (α : Type) where
  items_ : List α
  size_ : Nat
  capacity_ : Nat
deriving DecidableEq

namespace SimpleVector

variable {α : Type}

/-- The class invariant the implementation relies on: `size_ ≤ capacity_`
and the owned buffer has exactly `capacity_` allocated slots. -/
def WF (v : SimpleVector α) : Prop :=
  v.size_ ≤ v.capacity_ ∧ v.items_.length = v.capacity_

instance (v : SimpleVector α) : Decidable v.WF := by
  unfold WF; infer_instance

/-- `GetSize` (line 119). -/
def GetSize (v : SimpleVector α) : Nat := v.size_

/-- `GetCapacity` (line 123). -/
def GetCapacity (v : SimpleVector α) : Nat := v.capacity_

/-- `IsEmpty` (line 127). -/
def IsEmpty (v : SimpleVector α) : Bool := v.size_ == 0

/-- The logical sequence `[begin(), end())` (lines 255-275): the first
`size_` slots of the buffer. -/
def logical (v : SimpleVector α) : List α := v.items_.take v.size_

/-- Value read through `items_[index]` (raw unchecked slot read,
array_ptr.h line 46). -/
def get [Inhabited α] (v : SimpleVector α) (i : Nat) : α :=
  v.items_.getD i default

/-- Default constructor (line 36): null buffer, `size_ = capacity_ = 0`. -/
def mkEmpty : SimpleVector α := ⟨[], 0, 0⟩

/-- `SimpleVector(size, value)` (lines 43-49): allocate `size` slots,
fill all of them with `value`. -/
def mkSizeValue (n : Nat) (x : α) : SimpleVector α :=
  ⟨List.replicate n x, n, n⟩

/-- `SimpleVector(size)` (lines 38-41): delegates to
`SimpleVector(size, Type{})`. -/
def mkSize [Inhabited α] (n : Nat) : SimpleVector α :=
  mkSizeValue n default

/-- `SimpleVector(std::initializer_list)` (lines 51-57): allocate
`init.size()` slots and copy the list in. -/
def mkInit (l : List α) : SimpleVector α :=
  ⟨l, l.length, l.length⟩

/-- Copy constructor (lines 59-65): allocates `other.size_` slots
(`items_(other.size_)`), sets `size_{other.size_}` and
`capacity_{other.capacity_}`, then copies `[other.begin(), other.end())`
into the fresh buffer. -/
def copyCtor [Inhabited α] (o : SimpleVector α) : SimpleVector α :=
  ⟨writeAt (newBuffer α o.size_) 0 o.logical, o.size_, o.capacity_⟩

/-- `At` (lines 105-110): throws `std::out_of_range` unless
`index < size_`, else returns `items_[index]`.  The thrown case is
`none`; the function is read-only, so the vector state is unchanged by
construction. -/
def At [Inhabited α] (v : SimpleVector α) (i : Nat) : Option α :=
  if i < v.size_ then some (v.items_.getD i default) else none

/-- The `assert(size_ >= index)` guard of `operator[]` (lines 95-103):
`true` when the assertion passes (no abort in a debug build). -/
def opIndexAssertPasses (v : SimpleVector α) (i : Nat) : Bool :=
  v.size_ ≥ i

/-- `Clear` (lines 131-133): `size_ = 0`, buffer and capacity untouched. -/
def Clear (v : SimpleVector α) : SimpleVector α :=
  { v with size_ := 0 }

/-- `Reserve` (lines 135-141): no-op when `new_capacity <= capacity_`,
else allocate `new_capacity` slots, move the logical elements in, set
`capacity_`, and swap the buffers. -/
def Reserve [Inhabited α] (v : SimpleVector α) (n : Nat) : SimpleVector α :=
  if n ≤ v.capacity_ then v
  else ⟨writeAt (newBuffer α n) 0 v.logical, v.size_, n⟩

/-- `Resize` (lines 143-164): no-op when `new_size == size_`;
when `size_ < new_size && capacity_ < new_size`, reallocate to
`max(new_size, capacity_ * 2)`, move the logical elements in and assign
`Type{}` over slots `[size_, new_size)`;
when `size_ < new_size && capacity_ > new_size`, assign `Type{}` over
slots `[size_, new_size)` in place;
otherwise just set `size_ = new_size`. -/
def Resize [Inhabited α] (v : SimpleVector α) (n : Nat) : SimpleVector α :=
  if v.size_ = n then v
  else if v.size_ < n ∧ v.capacity_ < n then
    let nc := max n (v.capacity_ * 2)
    let tmp := writeAt (newBuffer α nc) 0 v.logical
    let tmp := writeAt tmp v.size_ (List.replicate (n - v.size_) default)
    ⟨tmp, n, nc⟩
  else if v.size_ < n ∧ n < v.capacity_ then
    ⟨writeAt v.items_ v.size_ (List.replicate (n - v.size_) default), n, v.capacity_⟩
  else
    { v with size_ := n }

/-- `PushBack(const Type&)` (lines 166-178): write `item` at slot `size_`
(in place when `size_ < capacity_`, else into a fresh buffer of
`max(1, capacity_ * 2)` slots holding the copied logical elements), then
`++size_`.  (`PushBack(Type&&)`, lines 180-194, effects the same state.) -/
def PushBack [Inhabited α] (v : SimpleVector α) (x : α) : SimpleVector α :=
  if v.size_ < v.capacity_ then
    ⟨writeAt v.items_ v.size_ [x], v.size_ + 1, v.capacity_⟩
  else
    let nc := max 1 (v.capacity_ * 2)
    let tmp := writeAt (newBuffer α nc) 0 v.logical
    ⟨writeAt tmp v.size_ [x], v.size_ + 1, nc⟩

/-- `Insert(pos, const Type&)` (lines 196-214) at position index
`pos = pos - begin()`: shift slots `[pos, size_)` to `[pos + 1, size_ + 1)`
(in place when `size_ < capacity_`, else inside a fresh buffer of
`max(1, capacity_ * 2)` slots receiving `[0, pos)` at the front), write
`value` at slot `pos`, then `++size_`.  (`Insert(pos, Type&&)`,
lines 216-235, effects the same state.) -/
def Insert [Inhabited α] (v : SimpleVector α) (pos : Nat) (x : α) : SimpleVector α :=
  if v.size_ < v.capacity_ then
    let buf := writeAt v.items_ (pos + 1) ((v.items_.drop pos).take (v.size_ - pos))
    ⟨writeAt buf pos [x], v.size_ + 1, v.capacity_⟩
  else
    let nc := max 1 (v.capacity_ * 2)
    let tmp := writeAt (newBuffer α nc) 0 (v.items_.take pos)
    let tmp := writeAt tmp (pos + 1) ((v.items_.drop pos).take (v.size_ - pos))
    ⟨writeAt tmp pos [x], v.size_ + 1, nc⟩

/-- `PopBack` (lines 237-240): `--size_` (precondition `size_ != 0`,
asserted in a debug build). -/
def PopBack (v : SimpleVector α) : SimpleVector α :=
  { v with size_ := v.size_ - 1 }

/-- `Erase(pos)` (lines 242-247) at position index `pos`: move slots
`[pos + 1, size_)` onto `[pos, size_ - 1)`, then `--size_`
(precondition `begin() <= pos < end()`, asserted in a debug build). -/
def Erase (v : SimpleVector α) (pos : Nat) : SimpleVector α :=
  ⟨writeAt v.items_ pos ((v.items_.drop (pos + 1)).take (v.size_ - 1 - pos)),
   v.size_ - 1, v.capacity_⟩

/-- `swap` (lines 249-253): exchanges buffer, `size_`, `capacity_`. -/
def swap (a b : SimpleVector α) : SimpleVector α × SimpleVector α :=
  (⟨b.items_, b.size_, b.capacity_⟩, ⟨a.items_, a.size_, a.capacity_⟩)

/-- Copy assignment (lines 71-82).  `aliased` is the outcome of the
`this == &rhs` address test (`true` exactly for self-assignment, which
the code guards and skips).  Otherwise: if `rhs.IsEmpty()`, `Clear()`;
else build `tmp` as `SimpleVector(rhs.size_)` with `rhs`'s logical
elements copied over its slots and swap it into `this`. -/
def copyAssign [Inhabited α] (this rhs : SimpleVector α) (aliased : Bool) :
    SimpleVector α :=
  if aliased then this
  else if rhs.IsEmpty then this.Clear
  else ⟨writeAt (newBuffer α rhs.size_) 0 rhs.logical, rhs.size_, rhs.size_⟩

/-- Move assignment (lines 84-93).  `aliased` as in `copyAssign`.
Otherwise: if `rhs.IsEmpty()`, `Clear()` on `this` and leave `rhs`
untouched; else swap `this` with `rhs`.  Returns the pair
`(this, rhs)` after the call. -/
def moveAssign (this rhs : SimpleVector α) (aliased : Bool) :
    SimpleVector α × SimpleVector α :=
  if aliased then (this, rhs)
  else if rhs.IsEmpty then (this.Clear, rhs)
  else (rhs, this)

end SimpleVector

open SimpleVector

/-- Element-range equality test of `std::equal(f1, l1, f2)` as called by
`operator==` (line 288): pairwise `==` over the first range's length.
(The call site guards it with a size-equality check, so both ranges have
the same length whenever this executes.) -/
def eqRange [DecidableEq α] : List α → List α → Bool
  | [], _ => true
  | _ :: _, [] => false
  | a :: as, b :: bs => a = b && eqRange as bs

/-- `std::lexicographical_compare(f1, l1, f2, l2)` as called by
`operator<` (line 298): first strictly smaller element decides; with one
range a proper prefix of the other, the shorter is smaller. -/
def lexicographicalCompare [LT α] [DecidableRel (LT.lt (α := α))] :
    List α → List α → Bool
  | [], [] => false
  | [], _ :: _ => true
  | _ :: _, [] => false
  | a :: as, b :: bs =>
    if a < b then true else if b < a then false else lexicographicalCompare as bs

/-- `operator==` (lines 286-289). -/
def vecEq [DecidableEq α] (a b : SimpleVector α) : Bool :=
  a.GetSize == b.GetSize && eqRange a.logical b.logical

/-- `operator<` (lines 296-299). -/
def vecLt [LT α] [DecidableRel (LT.lt (α := α))] (a b : SimpleVector α) : Bool :=
  lexicographicalCompare a.logical b.logical

/-- `operator<=` (lines 301-304). -/
def vecLe [DecidableEq α] [LT α] [DecidableRel (LT.lt (α := α))]
    (a b : SimpleVector α) : Bool :=
  vecEq a b || vecLt a b

/-- `operator>` (lines 306-309). -/
def vecGt [LT α] [DecidableRel (LT.lt (α := α))] (a b : SimpleVector α) : Bool :=
  vecLt b a

/-- `operator>=` (lines 311-314). -/
def vecGe [DecidableEq α] [LT α] [DecidableRel (LT.lt (α := α))]
    (a b : SimpleVector α) : Bool :=
  vecEq a b || vecLt b a

/-! ### Buffer-write lemmas -/

theorem writeAt_nil {α : Type} (dst : List α) (i : Nat) :
    writeAt dst i [] = dst := by
  simp [writeAt, List.take_append_drop]

theorem length_writeAt {α : Type} {dst src : List α} {i : Nat}
    (h : i + src.length ≤ dst.length) :
    (writeAt dst i src).length = dst.length := by
  simp [writeAt]
  omega

theorem getElem?_writeAt_lt {α : Type} {dst src : List α} {i j : Nat}
    (hj : j < i) (hi : i ≤ dst.length) :
    (writeAt dst i src)[j]? = dst[j]? := by
  have h1 : j < (dst.take i).length := by
    rw [List.length_take_of_le hi]; exact hj
  rw [writeAt, List.append_assoc, List.getElem?_append, if_pos h1,
      List.getElem?_take, if_pos hj]

theorem getElem?_writeAt_mid {α : Type} {dst src : List α} {i j : Nat}
    (h1 : i ≤ j) (h2 : j < i + src.length) (h3 : i + src.length ≤ dst.length) :
    (writeAt dst i src)[j]? = src[j - i]? := by
  have hti : (dst.take i).length = i := List.length_take_of_le (by omega)
  have hts : (src.take (dst.length - i)).length = src.length := by
    rw [List.length_take]; omega
  rw [writeAt, List.append_assoc, List.getElem?_append, if_neg (by omega),
      hti, List.getElem?_append, if_pos (by omega), List.getElem?_take,
      if_pos (by omega)]

theorem getElem?_writeAt_ge {α : Type} {dst src : List α} {i j : Nat}
    (h3 : i + src.length ≤ dst.length) (h : i + src.length ≤ j) :
    (writeAt dst i src)[j]? = dst[j]? := by
  have hti : (dst.take i).length = i := List.length_take_of_le (by omega)
  have hts : (src.take (dst.length - i)).length = src.length := by
    rw [List.length_take]; omega
  rw [writeAt, List.append_assoc, List.getElem?_append, if_neg (by omega),
      hti, List.getElem?_append, if_neg (by omega), hts, List.getElem?_drop]
  have : i + src.length + (j - i - src.length) = j := by omega
  rw [this]

theorem length_logical {α : Type} {v : SimpleVector α} (hwf : v.WF) :
    v.logical.length = v.size_ := by
  obtain ⟨h1, h2⟩ := hwf
  rw [SimpleVector.logical, List.length_take_of_le (by omega)]

theorem getElem?_logical {α : Type} (v : SimpleVector α) (i : Nat) :
    v.logical[i]? = if i < v.size_ then v.items_[i]? else none := by
  rw [SimpleVector.logical, List.getElem?_take]

/-! ### Claims -/

/-- C1: copy-construction is claimed to give the new vector a capacity equal
to the source's size, with the owned buffer's length equal to the reported
capacity.  The code instead copies the source's `capacity_` while
allocating only `other.size_` slots: for the reachable source
`b = PopBack (PushBack (PushBack mkEmpty 5) 6)` (size 1, capacity 2) the
copy reports capacity 2 ≠ 1 = b.GetSize, and its buffer holds 1 ≠ 2 slots,
violating the claimed buffer-length/capacity agreement. -/
theorem copyCtor_capacity_bug :
    ((((mkEmpty : SimpleVector Int).PushBack 5).PushBack 6).PopBack).GetSize = 1 ∧
    ((((mkEmpty : SimpleVector Int).PushBack 5).PushBack 6).PopBack).GetCapacity = 2 ∧
    (copyCtor ((((mkEmpty : SimpleVector Int).PushBack 5).PushBack 6).PopBack)).GetSize = 1 ∧
    (copyCtor ((((mkEmpty : SimpleVector Int).PushBack 5).PushBack 6).PopBack)).logical
      = ((((mkEmpty : SimpleVector Int).PushBack 5).PushBack 6).PopBack).logical ∧
    (copyCtor ((((mkEmpty : SimpleVector Int).PushBack 5).PushBack 6).PopBack)).GetCapacity = 2 ∧
    (copyCtor ((((mkEmpty : SimpleVector Int).PushBack 5).PushBack 6).PopBack)).items_.length = 1 := by
  decide

/-- C2: `Resize(n)` for `size < n ≤ capacity` is claimed to
default-construct the newly exposed slots `[size, n)`, including the
boundary case `n = capacity`.  The code's branch condition
`capacity_ > new_size` excludes `n = capacity`, which falls through to the
bare `size_ = new_size` branch: for the reachable vector
`v = PopBack (PushBack mkEmpty 5)` (size 0, capacity 1, buffer `[5]`),
`Resize v 1` exposes the stale value 5 at index 0 instead of a
default-constructed value. -/
theorem Resize_boundary_bug :
    (((mkEmpty : SimpleVector Int).PushBack 5).PopBack).GetSize = 0 ∧
    (((mkEmpty : SimpleVector Int).PushBack 5).PopBack).GetCapacity = 1 ∧
    ((((mkEmpty : SimpleVector Int).PushBack 5).PopBack).Resize 1).GetSize = 1 ∧
    ((((mkEmpty : SimpleVector Int).PushBack 5).PopBack).Resize 1).GetCapacity = 1 ∧
    ((((mkEmpty : SimpleVector Int).PushBack 5).PopBack).Resize 1).At 0 = some 5 ∧
    (default : Int) ≠ 5 := by
  decide

/-- C3: the debug assertion of unchecked `operator[]` is claimed to fire
for every index `i ≥ size`.  The code asserts `size_ >= index`, which
passes at `i = size`: for the vector `PushBack mkEmpty 7` of size 1, the
call `operator[](1)` is out of range yet its assertion passes (and the
subsequent raw read is past the logical sequence). -/
theorem opIndexAssert_bug :
    ((mkEmpty : SimpleVector Int).PushBack 7).GetSize = 1 ∧
    opIndexAssertPasses ((mkEmpty : SimpleVector Int).PushBack 7) 1 = true := by
  decide

/-- C4: `At(i)` fails with an OutOfRange condition (modelled `none`) if and
only if `i ≥ GetSize()`, and for `i < GetSize()` it returns the element at
index `i`; `At` is a pure read, so the vector is unchanged by
construction. -/
theorem At_spec {α : Type} [Inhabited α] (v : SimpleVector α) (i : Nat) :
    ((v.At i).isNone ↔ v.GetSize ≤ i) ∧
    (i < v.GetSize → v.At i = some (v.get i)) := by
  unfold SimpleVector.At SimpleVector.GetSize SimpleVector.get
  constructor
  · split
    · next h => simp; omega
    · next h => simp; omega
  · intro h
    rw [if_pos h]

theorem At_spec_witness :
    ((mkEmpty : SimpleVector Int).PushBack 5).At 0
      = some (((mkEmpty : SimpleVector Int).PushBack 5).get 0) :=
  (At_spec ((mkEmpty : SimpleVector Int).PushBack 5) 0).2 (by decide)

/-- C6: each of `PushBack`, `Insert`, `Erase`, `PopBack`, `Clear`,
`Resize`, `Reserve` leaves `GetCapacity()` greater than or equal to its
value before the operation. -/
theorem capacity_monotone {α : Type} [Inhabited α] (v : SimpleVector α)
    (n pos : Nat) (x : α) :
    v.GetCapacity ≤ (v.PushBack x).GetCapacity ∧
    v.GetCapacity ≤ (v.Insert pos x).GetCapacity ∧
    v.GetCapacity ≤ (v.Erase pos).GetCapacity ∧
    v.GetCapacity ≤ v.PopBack.GetCapacity ∧
    v.GetCapacity ≤ v.Clear.GetCapacity ∧
    v.GetCapacity ≤ (v.Resize n).GetCapacity ∧
    v.GetCapacity ≤ (v.Reserve n).GetCapacity := by
  unfold SimpleVector.GetCapacity SimpleVector.PushBack SimpleVector.Insert
    SimpleVector.Erase SimpleVector.PopBack SimpleVector.Clear
    SimpleVector.Resize SimpleVector.Reserve
  refine ⟨?_, ?_, ?_, ?_, ?_, ?_, ?_⟩ <;> (repeat' split) <;> simp <;> omega

/-- C9: for distinct objects (`aliased = false`), move-assigning `b` into
`a` swaps the two states when `b` is non-empty; when `b` is empty, `a` is
cleared instead — its size becomes 0 while its capacity keeps its prior
value — and `b` is untouched. -/
theorem moveAssign_spec {α : Type} (a b : SimpleVector α) :
    (b.GetSize ≠ 0 → moveAssign a b false = (b, a)) ∧
    (b.GetSize = 0 → moveAssign a b false = (a.Clear, b) ∧
      a.Clear.GetSize = 0 ∧ a.Clear.GetCapacity = a.GetCapacity) := by
  unfold moveAssign SimpleVector.IsEmpty SimpleVector.Clear
    SimpleVector.GetSize SimpleVector.GetCapacity
  constructor
  · intro h
    simp [h]
  · intro h
    simp [h]

theorem moveAssign_spec_witness :
    moveAssign (mkInit [(1 : Int)]) (mkInit [(2 : Int)]) false
      = (mkInit [(2 : Int)], mkInit [(1 : Int)]) :=
  (moveAssign_spec (mkInit [(1 : Int)]) (mkInit [(2 : Int)])).1 (by decide)

/-- C10: self-assignment (`aliased = true`, the code's `this != &rhs` guard
failing) is a no-op for both copy assignment and move assignment: size,
capacity and the whole buffer are exactly as they were. -/
theorem self_assign_noop {α : Type} [Inhabited α] (a : SimpleVector α) :
    copyAssign a a true = a ∧ moveAssign a a true = (a, a) :=
  ⟨rfl, rfl⟩


/-- C5: after `PushBack(x)` on a well-formed vector of size `s` and
capacity `c`: `GetSize()` is `s + 1`, the element at index `s` equals `x`,
the elements at indices `[0, s)` are unchanged, and the capacity is `c`
when `s < c` and `max(1, 2c)` when `s = c`. -/
theorem PushBack_spec {α : Type} [Inhabited α] (v : SimpleVector α) (x : α)
    (hwf : v.WF) :
    (v.PushBack x).GetSize = v.GetSize + 1 ∧
    (v.PushBack x).get v.GetSize = x ∧
    (∀ i, i < v.GetSize → (v.PushBack x).get i = v.get i) ∧
    (v.GetSize < v.GetCapacity → (v.PushBack x).GetCapacity = v.GetCapacity) ∧
    (v.GetSize = v.GetCapacity →
      (v.PushBack x).GetCapacity = max 1 (v.GetCapacity * 2)) := by
  obtain ⟨hsc, hlen⟩ := hwf
  unfold SimpleVector.PushBack SimpleVector.GetSize SimpleVector.GetCapacity
    SimpleVector.get
  by_cases hlt : v.size_ < v.capacity_
  · rw [if_pos hlt]
    refine ⟨rfl, ?_, ?_, fun _ => rfl, fun he => absurd he (by omega)⟩
    · show (writeAt v.items_ v.size_ [x]).getD v.size_ default = x
      rw [List.getD_eq_getElem?_getD,
        getElem?_writeAt_mid (le_refl _) (by simp) (by simp; omega)]
      simp
    · intro i hi
      show (writeAt v.items_ v.size_ [x]).getD i default = v.items_.getD i default
      rw [List.getD_eq_getElem?_getD, getElem?_writeAt_lt hi (by omega),
        ← List.getD_eq_getElem?_getD]
  · rw [if_neg hlt]
    dsimp only
    have hse : v.size_ = v.capacity_ := by omega
    have hlog : v.logical.length = v.size_ := by
      rw [SimpleVector.logical, List.length_take]; omega
    have hbuflen : (newBuffer α (max 1 (v.capacity_ * 2))).length
        = max 1 (v.capacity_ * 2) := by simp [newBuffer]
    have hinner : (writeAt (newBuffer α (max 1 (v.capacity_ * 2))) 0 v.logical).length
        = max 1 (v.capacity_ * 2) := by
      rw [length_writeAt (by rw [Nat.zero_add, hlog, hbuflen]; omega), hbuflen]
    refine ⟨rfl, ?_, ?_, fun hc => absurd hc hlt, fun _ => rfl⟩
    · rw [List.getD_eq_getElem?_getD,
        getElem?_writeAt_mid (le_refl _) (by simp) (by rw [hinner]; simp; omega)]
      simp
    · intro i hi
      rw [List.getD_eq_getElem?_getD,
        getElem?_writeAt_lt hi (by rw [hinner]; omega),
        getElem?_writeAt_mid (Nat.zero_le i) (by rw [Nat.zero_add, hlog]; omega)
          (by rw [Nat.zero_add, hlog, hbuflen]; omega),
        Nat.sub_zero, getElem?_logical, if_pos hi, ← List.getD_eq_getElem?_getD]

theorem PushBack_spec_witness :
    ((mkInit [(1 : Int), 2]).PushBack 9).GetSize = 3 ∧
    ((mkInit [(1 : Int), 2]).PushBack 9).get 2 = 9 ∧
    ((mkInit [(1 : Int), 2]).PushBack 9).get 0 = 1 := by
  have h := PushBack_spec (mkInit [(1 : Int), 2]) 9 (by decide)
  exact ⟨h.1.trans (by decide), h.2.1, (h.2.2.1 0 (by decide)).trans (by decide)⟩

theorem insert_erase_front_core {α : Type} (B src : List α) (x : α)
    (hB : src.length + 1 ≤ B.length) :
    (writeAt (writeAt (writeAt B 1 src) 0 [x]) 0
        (((writeAt (writeAt B 1 src) 0 [x]).drop 1).take src.length)).take src.length
      = src := by
  have h1 : (writeAt B 1 src).length = B.length :=
    length_writeAt (by omega)
  have h2 : (writeAt (writeAt B 1 src) 0 [x]).length = B.length := by
    rw [length_writeAt (by rw [h1]; simp only [List.length_singleton]; omega), h1]
  have hsrc2 : (((writeAt (writeAt B 1 src) 0 [x]).drop 1).take src.length).length
      = src.length := by
    rw [List.length_take, List.length_drop, h2]; omega
  apply List.ext_getElem?
  intro n
  by_cases hn : n < src.length
  · rw [List.getElem?_take, if_pos hn,
      getElem?_writeAt_mid (Nat.zero_le n) (by rw [Nat.zero_add, hsrc2]; omega)
        (by rw [Nat.zero_add, hsrc2, h2]; omega),
      Nat.sub_zero, List.getElem?_take, if_pos hn, List.getElem?_drop,
      getElem?_writeAt_ge (by rw [h1]; simp only [List.length_singleton]; omega)
        (by simp only [List.length_singleton]; omega),
      getElem?_writeAt_mid (by omega) (by omega) (by omega)]
    congr 1
    omega
  · rw [List.getElem?_take, if_neg hn, List.getElem?_eq_none (by omega)]

/-- C7: on a well-formed vector, `Insert(begin(), v)` followed by
`Erase(begin())` restores the original logical sequence: the size and the
values at indices `[0, size)` are what they were before the two calls
(capacity may differ, and is not constrained here). -/
theorem Insert_Erase_begin {α : Type} [Inhabited α] (v : SimpleVector α) (x : α)
    (hwf : v.WF) :
    ((v.Insert 0 x).Erase 0).GetSize = v.GetSize ∧
    ((v.Insert 0 x).Erase 0).logical = v.logical := by
  obtain ⟨hsc, hlen⟩ := hwf
  have hlog : v.logical.length = v.size_ := by
    rw [SimpleVector.logical, List.length_take]; omega
  have elog : v.items_.take v.size_ = v.logical := rfl
  unfold SimpleVector.Insert SimpleVector.Erase SimpleVector.GetSize
    SimpleVector.logical
  by_cases hlt : v.size_ < v.capacity_
  · rw [if_pos hlt]
    dsimp only
    simp only [List.drop_zero, Nat.sub_zero, Nat.add_sub_cancel, elog]
    refine ⟨trivial, ?_⟩
    rw [← hlog]
    exact insert_erase_front_core v.items_ v.logical x (by rw [hlog]; omega)
  · rw [if_neg hlt]
    dsimp only
    simp only [List.take_zero, List.drop_zero, Nat.sub_zero, Nat.add_sub_cancel,
      writeAt_nil, elog]
    refine ⟨trivial, ?_⟩
    rw [← hlog]
    exact insert_erase_front_core (newBuffer α (max 1 (v.capacity_ * 2))) v.logical x
      (by rw [hlog]; simp [newBuffer]; omega)

theorem Insert_Erase_begin_witness :
    (((mkInit [(1 : Int), 2]).Insert 0 9).Erase 0).GetSize
      = (mkInit [(1 : Int), 2]).GetSize ∧
    (((mkInit [(1 : Int), 2]).Insert 0 9).Erase 0).logical
      = (mkInit [(1 : Int), 2]).logical :=
  Insert_Erase_begin (mkInit [(1 : Int), 2]) 9 (by decide)

theorem eqRange_eq_true_iff {α : Type} [DecidableEq α] :
    ∀ (l1 l2 : List α), l1.length = l2.length → (eqRange l1 l2 = true ↔ l1 = l2)
  | [], [] => fun _ => by simp [eqRange]
  | [], _ :: _ => fun h => by simp at h
  | _ :: _, [] => fun h => by simp at h
  | a :: as, b :: bs => fun h => by
    simp only [eqRange, Bool.and_eq_true, decide_eq_true_eq, List.cons.injEq]
    have ih := eqRange_eq_true_iff as bs (by simpa using h)
    exact ⟨fun q => ⟨q.1, ih.1 q.2⟩, fun q => ⟨q.1, ih.2 q.2⟩⟩

theorem lexicographicalCompare_iff_lex {α : Type} [LinearOrder α] :
    ∀ (l1 l2 : List α),
      (lexicographicalCompare l1 l2 = true ↔ List.Lex (· < ·) l1 l2)
  | [], [] => by
    rw [lexicographicalCompare]
    exact ⟨fun h => Bool.noConfusion h, fun h => by cases h⟩
  | [], b :: bs => by
    rw [lexicographicalCompare]
    exact ⟨fun _ => List.Lex.nil, fun _ => rfl⟩
  | a :: as, [] => by
    rw [lexicographicalCompare]
    exact ⟨fun h => Bool.noConfusion h, fun h => by cases h⟩
  | a :: as, b :: bs => by
    rw [lexicographicalCompare]
    by_cases hab : a < b
    · rw [if_pos hab]
      exact ⟨fun _ => List.Lex.rel hab, fun _ => rfl⟩
    · rw [if_neg hab]
      by_cases hba : b < a
      · rw [if_pos hba]
        constructor
        · intro h; exact Bool.noConfusion h
        · intro h
          cases h with
          | cons h1 => exact absurd hba (lt_irrefl a)
          | rel h1 => exact absurd h1 hab
      · rw [if_neg hba]
        have hq : a = b := le_antisymm (not_lt.mp hba) (not_lt.mp hab)
        subst hq
        have ih := lexicographicalCompare_iff_lex as bs
        constructor
        · intro h; exact List.Lex.cons (ih.1 h)
        · intro h
          cases h with
          | cons h1 => exact ih.2 h1
          | rel h1 => exact absurd h1 (lt_irrefl a)

/-- C8: for well-formed vectors over an ordered element type, `a == b`
holds iff the sizes are equal and the elements are pairwise equal in
order (capacity plays no part); `a < b` holds iff `a`'s logical sequence
is lexicographically less than `b`'s (`List.Lex`, under which a proper
prefix is less); and `a <= b`, `a > b`, `a >= b` are respectively
equivalent to `a == b ∨ a < b`, `b < a`, and `a == b ∨ b < a`. -/
theorem comparison_ops_spec {α : Type} [LinearOrder α] (a b : SimpleVector α)
    (ha : a.WF) (hb : b.WF) :
    (vecEq a b = true ↔
      (a.GetSize = b.GetSize ∧ ∀ i, i < a.GetSize → a.items_[i]? = b.items_[i]?)) ∧
    (vecLt a b = true ↔ List.Lex (· < ·) a.logical b.logical) ∧
    (vecLe a b = true ↔ (vecEq a b = true ∨ vecLt a b = true)) ∧
    (vecGt a b = true ↔ vecLt b a = true) ∧
    (vecGe a b = true ↔ (vecEq a b = true ∨ vecLt b a = true)) := by
  have hla : a.logical.length = a.size_ := length_logical ha
  have hlb : b.logical.length = b.size_ := length_logical hb
  refine ⟨?_, lexicographicalCompare_iff_lex _ _, ?_, Iff.rfl, ?_⟩
  · unfold vecEq SimpleVector.GetSize
    rw [Bool.and_eq_true, beq_iff_eq]
    constructor
    · rintro ⟨hsz, heq⟩
      have hll : a.logical.length = b.logical.length := by rw [hla, hlb, hsz]
      have hleq := (eqRange_eq_true_iff _ _ hll).1 heq
      refine ⟨hsz, fun i hi => ?_⟩
      have h1 : a.logical[i]? = b.logical[i]? := by rw [hleq]
      rw [getElem?_logical, getElem?_logical, if_pos hi, if_pos (by omega)] at h1
      exact h1
    · rintro ⟨hsz, hpt⟩
      refine ⟨hsz, ?_⟩
      have hll : a.logical.length = b.logical.length := by rw [hla, hlb, hsz]
      apply (eqRange_eq_true_iff _ _ hll).2
      apply List.ext_getElem?
      intro n
      rw [getElem?_logical, getElem?_logical]
      by_cases hn : n < a.size_
      · rw [if_pos hn, if_pos (by omega)]
        exact hpt n hn
      · rw [if_neg hn, if_neg (by omega)]
  · unfold vecLe
    exact iff_of_eq (Bool.or_eq_true _ _)
  · unfold vecGe
    exact iff_of_eq (Bool.or_eq_true _ _)

theorem comparison_ops_spec_witness :
    vecGt (mkInit [(1 : Int), 3]) (mkInit [(1 : Int), 2]) = true ↔
      vecLt (mkInit [(1 : Int), 2]) (mkInit [(1 : Int), 3]) = true :=
  (comparison_ops_spec (mkInit [(1 : Int), 3]) (mkInit [(1 : Int), 2])
    (by decide) (by decide)).2.2.2.1

end SimpleVec
